import Mathlib

/-!
Verification of the diffraction-limit solver in
`site/diffraction/diffraction.js`.

The solver is embedded over the real numbers: JavaScript `number`
arithmetic is modelled by exact real arithmetic, `Math.acos`, `Math.sqrt`
and `Math.PI` by `Real.arccos`, `Real.sqrt` and `Real.pi`, a thrown
`Error(msg)` by `Except.error msg`, and the returned object by a structure
whose two conditionally-present fields are `Option`-valued.
`Number(x.toFixed(d))` is modelled by rounding half-up to `d` decimal
places (ECMA-262 `toFixed` picks the larger candidate integer on ties).
The `while` loop is modelled by a fuel-indexed recursion: the fuel is
`maxIterations - iterations`, so the `iterations < maxIterations`
conjunct of the loop condition is exactly "fuel is nonzero".
-/

namespace Diffraction

open Real Set

/-- Result record of `calculateDiffractionLimit`.  On the boundary
short-circuit paths the JavaScript object literal omits the last two
fields; this is modelled by `Option` fields that are `none` there. -/
structure DiffractionResult where
  spatialFrequency : ℝ
  cutoffFrequency : ℝ
  normalizedFrequency : Option ℝ
  iterations : Option ℕ

/-- Semantics of JavaScript `Number(x.toFixed(digits))`: round `x` to
`digits` decimal places, ties rounding up (towards the larger candidate,
per ECMA-262). -/
noncomputable def toFixed (digits : ℕ) (x : ℝ) : ℝ :=
  (⌊x * 10 ^ digits + 1 / 2⌋ : ℝ) / 10 ^ digits

/-- The `tolerance` constant of the bisection loop. -/
def tolerance : ℝ := 1e-6

/-- The `maxIterations` constant of the bisection loop. -/
def maxIterations : ℕ := 100

/-- The normalized MTF function for a diffraction-limited system, exactly
as defined inside `calculateDiffractionLimit`:
`u <= 0 ↦ 1`, `u >= 1 ↦ 0`, otherwise `(2/π)(acos u - u·sqrt(1 - u²))`. -/
noncomputable def mtf (u : ℝ) : ℝ :=
  if u ≤ 0 then 1
  else if 1 ≤ u then 0
  else (2 / π) * (Real.arccos u - u * Real.sqrt (1 - u * u))

/-- The smooth branch of `mtf`, as a globally defined function; `mtf`
agrees with it on `[0,1]` (`mtf_eq_mtfCore`). -/
noncomputable def mtfCore (u : ℝ) : ℝ :=
  (2 / π) * (Real.arccos u - u * Real.sqrt (1 - u * u))

/-- The bisection `while` loop of `calculateDiffractionLimit`.
State is `(low, high, u, iterations)`; `fuel` stands for
`maxIterations - iterations`, so `fuel = 0` is the `iterations <
maxIterations` exit and the `if high - low > tolerance` guard is the
other conjunct of the loop condition.  The body computes the midpoint,
breaks (without incrementing `iterations`) when the MTF value is within
`tolerance` of the target, and otherwise moves `low` or `high` to the
midpoint and increments `iterations`.  The value returned is the pair
`(u, iterations)` left in the loop variables. -/
noncomputable def bisect (targetMtf : ℝ) : ℕ → ℝ → ℝ → ℝ → ℕ → ℝ × ℕ
  | 0, _low, _high, u, iterations => (u, iterations)
  | fuel + 1, low, high, u, iterations =>
    if high - low > tolerance then
      let u' := (low + high) / 2
      let currentMtf := mtf u'
      if |currentMtf - targetMtf| < tolerance then (u', iterations)
      else if currentMtf > targetMtf then
        bisect targetMtf fuel u' high u' (iterations + 1)
      else
        bisect targetMtf fuel low u' u' (iterations + 1)
    else (u, iterations)

/-- Embedding of `calculateDiffractionLimit(fNumber, contrastPercent,
wavelengthNm)`. -/
noncomputable def calculateDiffractionLimit
    (fNumber contrastPercent wavelengthNm : ℝ) :
    Except String DiffractionResult :=
  if fNumber ≤ 0 then Except.error ("f-number must be positive")
  else if contrastPercent < 0 ∨ contrastPercent > 100 then
    Except.error ("Contrast percentage must be between 0 and 100")
  else if wavelengthNm ≤ 0 then Except.error ("Wavelength must be positive")
  else
    let wavelengthMm := wavelengthNm * 1e-6
    let cutoffFrequency := 1 / (wavelengthMm * fNumber)
    if contrastPercent ≥ 100 then
      Except.ok { spatialFrequency := 0, cutoffFrequency := cutoffFrequency,
                  normalizedFrequency := none, iterations := none }
    else if contrastPercent ≤ 0 then
      Except.ok { spatialFrequency := cutoffFrequency,
                  cutoffFrequency := cutoffFrequency,
                  normalizedFrequency := none, iterations := none }
    else
      let targetMtf := contrastPercent / 100
      let r := bisect targetMtf maxIterations 0 1 0.5 0
      Except.ok { spatialFrequency := toFixed 1 (r.1 * cutoffFrequency),
                  cutoffFrequency := toFixed 1 cutoffFrequency,
                  normalizedFrequency := some (toFixed 6 r.1),
                  iterations := some r.2 }

/-- The `spatialFrequency` of a solver outcome (`0` for an error). -/
def spatialFrequencyOf : Except String DiffractionResult → ℝ
  | Except.ok r => r.spatialFrequency
  | Except.error _ => 0

/-- The `cutoffFrequency` of a solver outcome (`0` for an error). -/
def cutoffFrequencyOf : Except String DiffractionResult → ℝ
  | Except.ok r => r.cutoffFrequency
  | Except.error _ => 0

/-! ### Unfolding lemmas for the three non-error paths -/

theorem calc_hundred (f c w : ℝ) (hf : 0 < f) (hc0 : 0 ≤ c) (hc1 : c ≤ 100)
    (hw : 0 < w) (hc : 100 ≤ c) :
    calculateDiffractionLimit f c w =
      Except.ok { spatialFrequency := 0,
                  cutoffFrequency := 1 / (w * 1e-6 * f),
                  normalizedFrequency := none, iterations := none } := by
  unfold calculateDiffractionLimit
  rw [if_neg (by linarith), if_neg (by push_neg; exact ⟨by linarith, by linarith⟩),
    if_neg (by linarith), if_pos (by exact hc)]

theorem calc_zero (f c w : ℝ) (hf : 0 < f) (hc0 : 0 ≤ c) (hc1 : c ≤ 100)
    (hw : 0 < w) (hc : c ≤ 0) :
    calculateDiffractionLimit f c w =
      Except.ok { spatialFrequency := 1 / (w * 1e-6 * f),
                  cutoffFrequency := 1 / (w * 1e-6 * f),
                  normalizedFrequency := none, iterations := none } := by
  unfold calculateDiffractionLimit
  rw [if_neg (by linarith), if_neg (by push_neg; exact ⟨by linarith, by linarith⟩),
    if_neg (by linarith), if_neg (by push_neg; linarith), if_pos (by exact hc)]

theorem calc_interior (f c w : ℝ) (hf : 0 < f) (hc0 : 0 < c) (hc1 : c < 100)
    (hw : 0 < w) :
    calculateDiffractionLimit f c w =
      Except.ok { spatialFrequency :=
                    toFixed 1 ((bisect (c / 100) maxIterations 0 1 0.5 0).1 *
                      (1 / (w * 1e-6 * f))),
                  cutoffFrequency := toFixed 1 (1 / (w * 1e-6 * f)),
                  normalizedFrequency :=
                    some (toFixed 6 (bisect (c / 100) maxIterations 0 1 0.5 0).1),
                  iterations :=
                    some (bisect (c / 100) maxIterations 0 1 0.5 0).2 } := by
  unfold calculateDiffractionLimit
  rw [if_neg (by linarith), if_neg (by push_neg; exact ⟨by linarith, by linarith⟩),
    if_neg (by linarith), if_neg (by push_neg; linarith), if_neg (by push_neg; linarith)]

/-! ### Structural lemmas about the bisection loop -/

theorem bisect_zero (t : ℝ) (low high u : ℝ) (it : ℕ) :
    bisect t 0 low high u it = (u, it) := rfl

theorem bisect_exit (t : ℝ) (fuel : ℕ) (low high u : ℝ) (it : ℕ)
    (hw : ¬ high - low > tolerance) :
    bisect t (fuel + 1) low high u it = (u, it) := by
  simp only [bisect]
  rw [if_neg hw]

theorem bisect_break (t : ℝ) (fuel : ℕ) (low high u m : ℝ) (it : ℕ)
    (hm : (low + high) / 2 = m)
    (hw : high - low > tolerance)
    (hb : |mtf m - t| < tolerance) :
    bisect t (fuel + 1) low high u it = (m, it) := by
  subst hm
  simp only [bisect]
  rw [if_pos hw, if_pos hb]

theorem bisect_step_low (t : ℝ) (fuel : ℕ) (low high u m : ℝ) (it : ℕ)
    (hm : (low + high) / 2 = m)
    (hw : high - low > tolerance)
    (hnb : ¬ |mtf m - t| < tolerance)
    (hdir : mtf m > t) :
    bisect t (fuel + 1) low high u it = bisect t fuel m high m (it + 1) := by
  subst hm
  simp only [bisect]
  rw [if_pos hw, if_neg hnb, if_pos hdir]

theorem bisect_step_high (t : ℝ) (fuel : ℕ) (low high u m : ℝ) (it : ℕ)
    (hm : (low + high) / 2 = m)
    (hw : high - low > tolerance)
    (hnb : ¬ |mtf m - t| < tolerance)
    (hdir : ¬ mtf m > t) :
    bisect t (fuel + 1) low high u it = bisect t fuel low m m (it + 1) := by
  subst hm
  simp only [bisect]
  rw [if_pos hw, if_neg hnb, if_neg hdir]

/-- The value of `u` delivered by the loop stays inside the initial
bracketing interval. -/
theorem bisect_mem (t : ℝ) :
    ∀ (fuel : ℕ) (low high u : ℝ) (it : ℕ), low ≤ u → u ≤ high →
      low ≤ (bisect t fuel low high u it).1 ∧
        (bisect t fuel low high u it).1 ≤ high := by
  intro fuel
  induction fuel with
  | zero =>
    intro low high u it h1 h2
    rw [bisect_zero]
    exact ⟨h1, h2⟩
  | succ n ih =>
    intro low high u it h1 h2
    have hlh : low ≤ high := le_trans h1 h2
    by_cases hw : high - low > tolerance
    · set m := (low + high) / 2 with hm
      have hm1 : low ≤ m := by rw [hm]; linarith
      have hm2 : m ≤ high := by rw [hm]; linarith
      by_cases hb : |mtf m - t| < tolerance
      · rw [bisect_break t n low high u m it hm.symm hw hb]
        exact ⟨hm1, hm2⟩
      · by_cases hdir : mtf m > t
        · rw [bisect_step_low t n low high u m it hm.symm hw hb hdir]
          have := ih m high m (it + 1) le_rfl hm2
          exact ⟨le_trans hm1 this.1, this.2⟩
        · rw [bisect_step_high t n low high u m it hm.symm hw hb hdir]
          have := ih low m m (it + 1) hm1 le_rfl
          exact ⟨this.1, le_trans this.2 hm2⟩
    · rw [bisect_exit t n low high u it hw]
      exact ⟨h1, h2⟩

/-- The bracketing interval halves on every counted iteration, so the
returned iteration count never exceeds 20. -/
theorem bisect_iter_le (t : ℝ) :
    ∀ (fuel : ℕ) (low high u : ℝ) (it : ℕ),
      high - low = (1 / 2) ^ it → it ≤ 20 →
      (bisect t fuel low high u it).2 ≤ 20 := by
  intro fuel
  induction fuel with
  | zero =>
    intro low high u it _ h20
    rw [bisect_zero]
    exact h20
  | succ n ih =>
    intro low high u it hwidth h20
    by_cases hw : high - low > tolerance
    · have hit19 : it ≤ 19 := by
        by_contra hgt
        push_neg at hgt
        have h1 : ((1 : ℝ) / 2) ^ it ≤ (1 / 2) ^ 20 :=
          pow_le_pow_of_le_one (by norm_num) (by norm_num) (by omega)
        have h2 : ((1 : ℝ) / 2) ^ 20 ≤ tolerance := by
          norm_num [tolerance]
        rw [hwidth] at hw
        linarith
      set m := (low + high) / 2 with hm
      have hwidth2 : high - m = (1 / 2) ^ (it + 1) := by
        rw [hm, pow_succ, ← hwidth]; ring
      have hwidth3 : m - low = (1 / 2) ^ (it + 1) := by
        rw [hm, pow_succ, ← hwidth]; ring
      by_cases hb : |mtf m - t| < tolerance
      · rw [bisect_break t n low high u m it hm.symm hw hb]
        exact h20
      · by_cases hdir : mtf m > t
        · rw [bisect_step_low t n low high u m it hm.symm hw hb hdir]
          exact ih m high m (it + 1) hwidth2 (by omega)
        · rw [bisect_step_high t n low high u m it hm.symm hw hb hdir]
          exact ih low m m (it + 1) hwidth3 (by omega)
    · rw [bisect_exit t n low high u it hw]
      exact h20

/-- Convergence invariant of the loop: on exit either the delivered `u`
has MTF within `tolerance` of the target (early break), or the delivered
`u` lies in a bracketing interval of width at most `tolerance` whose
endpoints straddle the target. -/
theorem bisect_bracket (t : ℝ) :
    ∀ (fuel : ℕ) (low high u : ℝ) (it : ℕ),
      0 ≤ low → high ≤ 1 → low ≤ u → u ≤ high →
      high - low = (1 / 2) ^ it → fuel + it = 100 →
      t < mtf low → mtf high < t →
      |mtf (bisect t fuel low high u it).1 - t| < tolerance ∨
      ∃ l h, 0 ≤ l ∧ h ≤ 1 ∧ l ≤ (bisect t fuel low high u it).1 ∧
        (bisect t fuel low high u it).1 ≤ h ∧ h - l ≤ tolerance ∧
        t < mtf l ∧ mtf h < t := by
  intro fuel
  induction fuel with
  | zero =>
    intro low high u it hl0 hh1 hu1 hu2 hwidth hfuel hml hmh
    rw [bisect_zero]
    right
    refine ⟨low, high, hl0, hh1, hu1, hu2, ?_, hml, hmh⟩
    have : it = 100 := by omega
    rw [hwidth, this]
    norm_num [tolerance]
  | succ n ih =>
    intro low high u it hl0 hh1 hu1 hu2 hwidth hfuel hml hmh
    by_cases hw : high - low > tolerance
    · set m := (low + high) / 2 with hm
      have hlh : low ≤ high := le_trans hu1 hu2
      have hm1 : low ≤ m := by rw [hm]; linarith
      have hm2 : m ≤ high := by rw [hm]; linarith
      have hwidth2 : high - m = (1 / 2) ^ (it + 1) := by
        rw [hm, pow_succ, ← hwidth]; ring
      have hwidth3 : m - low = (1 / 2) ^ (it + 1) := by
        rw [hm, pow_succ, ← hwidth]; ring
      by_cases hb : |mtf m - t| < tolerance
      · rw [bisect_break t n low high u m it hm.symm hw hb]
        exact Or.inl hb
      · by_cases hdir : mtf m > t
        · rw [bisect_step_low t n low high u m it hm.symm hw hb hdir]
          exact ih m high m (it + 1) (le_trans hl0 hm1) hh1 le_rfl hm2 hwidth2
            (by omega) hdir hmh
        · rw [bisect_step_high t n low high u m it hm.symm hw hb hdir]
          push_neg at hdir
          have hlt : mtf m < t := by
            rcases lt_or_eq_of_le hdir with h | h
            · exact h
            · exfalso
              apply hb
              rw [h, sub_self, abs_zero]
              norm_num [tolerance]
          exact ih low m m (it + 1) hl0 (le_trans hm2 hh1) hm1 le_rfl hwidth3
            (by omega) hml hlt
    · rw [bisect_exit t n low high u it hw]
      right
      exact ⟨low, high, hl0, hh1, hu1, hu2, by linarith [not_lt.mp hw], hml, hmh⟩

/-! ### Analytic properties of the MTF function -/

theorem mtf_eq_mtfCore (u : ℝ) (h0 : 0 ≤ u) (h1 : u ≤ 1) :
    mtf u = mtfCore u := by
  unfold mtf mtfCore
  by_cases hu0 : u ≤ 0
  · have hz : u = 0 := le_antisymm hu0 h0
    subst hz
    rw [if_pos le_rfl, Real.arccos_zero]
    have hπ : π ≠ 0 := Real.pi_ne_zero
    field_simp
  · rw [if_neg hu0]
    by_cases hu1 : 1 ≤ u
    · have ho : u = 1 := le_antisymm h1 hu1
      subst ho
      rw [if_pos le_rfl, Real.arccos_one]
      norm_num
    · rw [if_neg hu1]

theorem mtf_zero : mtf 0 = 1 := by
  unfold mtf
  rw [if_pos le_rfl]

theorem mtf_one : mtf 1 = 0 := by
  unfold mtf
  rw [if_neg (by norm_num), if_pos le_rfl]

theorem mtfCore_continuous : Continuous mtfCore := by
  unfold mtfCore
  refine continuous_const.mul (Real.continuous_arccos.sub ?_)
  exact continuous_id.mul
    (Real.continuous_sqrt.comp (continuous_const.sub (continuous_id.mul continuous_id)))

theorem mtfCore_hasDerivAt (u : ℝ) (h0 : 0 < u) (h1 : u < 1) :
    HasDerivAt mtfCore (-(4 / π) * Real.sqrt (1 - u * u)) u := by
  have huu : 0 < 1 - u * u := by nlinarith
  have hspos : 0 < Real.sqrt (1 - u * u) := Real.sqrt_pos.mpr huu
  have hs2 : Real.sqrt (1 - u * u) ^ 2 = 1 - u * u := Real.sq_sqrt huu.le
  have hne1 : u ≠ 1 := ne_of_lt h1
  have hnem1 : u ≠ -1 := by intro h; rw [h] at h0; linarith
  have harc : HasDerivAt Real.arccos (-(1 / Real.sqrt (1 - u ^ 2))) u :=
    Real.hasDerivAt_arccos hnem1 hne1
  have hinner : HasDerivAt (fun x : ℝ => 1 - x * x) (-(1 * u + u * 1)) u :=
    ((hasDerivAt_id u).mul (hasDerivAt_id u)).const_sub 1
  have hsqrtc : HasDerivAt (fun x : ℝ => Real.sqrt (1 - x * x))
      (1 / (2 * Real.sqrt (1 - u * u)) * -(1 * u + u * 1)) u :=
    (Real.hasDerivAt_sqrt (ne_of_gt huu)).comp u hinner
  have hprod : HasDerivAt (fun x : ℝ => x * Real.sqrt (1 - x * x))
      (1 * Real.sqrt (1 - u * u) +
        u * (1 / (2 * Real.sqrt (1 - u * u)) * -(1 * u + u * 1))) u :=
    (hasDerivAt_id u).mul hsqrtc
  have hdiff := (harc.sub hprod).const_mul (2 / π)
  have hsqeq : Real.sqrt (1 - u ^ 2) = Real.sqrt (1 - u * u) := by ring_nf
  rw [hsqeq] at hdiff
  convert hdiff using 1
  have hπ : π ≠ 0 := Real.pi_ne_zero
  have hsne : Real.sqrt (1 - u * u) ≠ 0 := ne_of_gt hspos
  field_simp
  linear_combination (-4 * π * Real.sqrt (1 - u * u)) * hs2

theorem mtfCore_strictAnti (x y : ℝ) (hx : 0 ≤ x) (hxy : x < y) (hy : y ≤ 1) :
    mtfCore y < mtfCore x := by
  obtain ⟨c, hc, hslope⟩ :=
    exists_hasDerivAt_eq_slope mtfCore (fun z => -(4 / π) * Real.sqrt (1 - z * z))
      hxy mtfCore_continuous.continuousOn
      (fun z hz => mtfCore_hasDerivAt z (lt_of_le_of_lt hx hz.1) (lt_of_lt_of_le hz.2 hy))
  have hc0 : 0 < c := lt_of_le_of_lt hx hc.1
  have hc1 : c < 1 := lt_of_lt_of_le hc.2 hy
  have hsq : 0 < 1 - c * c := by nlinarith
  have hspos : 0 < Real.sqrt (1 - c * c) := Real.sqrt_pos.mpr hsq
  have h4π : 0 < 4 / π := by positivity
  have hneg : -(4 / π) * Real.sqrt (1 - c * c) < 0 := by nlinarith
  rw [hslope] at hneg
  have hyx : 0 < y - x := by linarith
  rcases div_neg_iff.mp hneg with ⟨_, hb⟩ | ⟨ha, _⟩
  · linarith
  · linarith

theorem mtfCore_lip (x y : ℝ) (hx : 0 ≤ x) (hxy : x ≤ y) (hy : y ≤ 1) :
    |mtfCore y - mtfCore x| ≤ 2 * (y - x) := by
  rcases eq_or_lt_of_le hxy with h | h
  · subst h; simp
  · obtain ⟨c, hc, hslope⟩ :=
      exists_hasDerivAt_eq_slope mtfCore (fun z => -(4 / π) * Real.sqrt (1 - z * z))
        h mtfCore_continuous.continuousOn
        (fun z hz => mtfCore_hasDerivAt z (lt_of_le_of_lt hx hz.1) (lt_of_lt_of_le hz.2 hy))
    have hc0 : 0 < c := lt_of_le_of_lt hx hc.1
    have hc1 : c < 1 := lt_of_lt_of_le hc.2 hy
    have hπ3 : 3 < π := Real.pi_gt_three
    have hs1 : Real.sqrt (1 - c * c) ≤ 1 :=
      Real.sqrt_le_iff.mpr ⟨by norm_num, by nlinarith⟩
    have hs0 : 0 ≤ Real.sqrt (1 - c * c) := Real.sqrt_nonneg _
    have habs : |-(4 / π) * Real.sqrt (1 - c * c)| ≤ 2 := by
      rw [abs_mul, abs_neg, abs_of_pos (show (0:ℝ) < 4 / π by positivity),
        abs_of_nonneg hs0]
      have h42 : 4 / π ≤ 2 := by
        rw [div_le_iff₀ (by linarith)]
        linarith
      nlinarith
    have hyx : y - x ≠ 0 := ne_of_gt (by linarith)
    have heq : mtfCore y - mtfCore x =
        -(4 / π) * Real.sqrt (1 - c * c) * (y - x) := by
      rw [hslope, div_mul_cancel₀ _ hyx]
    rw [heq, abs_mul, abs_of_pos (show (0:ℝ) < y - x by linarith)]
    nlinarith [abs_nonneg (-(4 / π) * Real.sqrt (1 - c * c))]

/-- `mtf` is non-increasing on `[0,1]`. -/
theorem mtf_anti (x y : ℝ) (hx : 0 ≤ x) (hxy : x ≤ y) (hy : y ≤ 1) :
    mtf y ≤ mtf x := by
  rcases eq_or_lt_of_le hxy with h | h
  · subst h; exact le_rfl
  · rw [mtf_eq_mtfCore x hx (by linarith), mtf_eq_mtfCore y (by linarith) hy]
    exact le_of_lt (mtfCore_strictAnti x y hx h hy)

/-- `mtf` is 2-Lipschitz on `[0,1]`. -/
theorem mtf_lip (x y : ℝ) (hx : x ∈ Icc (0:ℝ) 1) (hy : y ∈ Icc (0:ℝ) 1) :
    |mtf y - mtf x| ≤ 2 * |y - x| := by
  rw [mtf_eq_mtfCore x hx.1 hx.2, mtf_eq_mtfCore y hy.1 hy.2]
  rcases le_total x y with h | h
  · rw [abs_of_nonneg (by linarith : (0:ℝ) ≤ y - x)]
    exact mtfCore_lip x y hx.1 h hy.2
  · rw [abs_of_nonpos (by linarith : y - x ≤ 0), abs_sub_comm]
    have := mtfCore_lip y x hy.1 h hx.2
    linarith [this]

/-- Intermediate value: a straddled bracket contains an exact root. -/
theorem mtf_root_exists (t l h : ℝ) (hl : 0 ≤ l) (hlh : l ≤ h) (hh : h ≤ 1)
    (h1 : t ≤ mtf l) (h2 : mtf h ≤ t) :
    ∃ r, r ∈ Icc l h ∧ mtf r = t := by
  have hcont : ContinuousOn mtf (Icc l h) := by
    apply mtfCore_continuous.continuousOn.congr
    intro z hz
    exact mtf_eq_mtfCore z (le_trans hl hz.1) (le_trans hz.2 hh)
  have hmem : t ∈ Icc (mtf h) (mtf l) := ⟨h2, h1⟩
  obtain ⟨r, hr, hrt⟩ := intermediate_value_Icc' hlh hcont hmem
  exact ⟨r, hr, hrt⟩

/-! ### Rounding lemmas -/

theorem toFixed_mono (d : ℕ) (x y : ℝ) (h : x ≤ y) : toFixed d x ≤ toFixed d y := by
  unfold toFixed
  have h10 : (0:ℝ) < 10 ^ d := by positivity
  gcongr

theorem toFixed_nonneg (d : ℕ) (x : ℝ) (h : 0 ≤ x) : 0 ≤ toFixed d x := by
  unfold toFixed
  have h10 : (0:ℝ) < 10 ^ d := by positivity
  apply div_nonneg _ h10.le
  have h2 : (0:ℤ) ≤ ⌊x * 10 ^ d + 1 / 2⌋ := by
    rw [Int.le_floor]
    push_cast
    positivity
  exact_mod_cast h2

theorem toFixed_one (d : ℕ) : toFixed d 1 = 1 := by
  unfold toFixed
  have h10 : (0:ℝ) < 10 ^ d := by positivity
  have hfl : ⌊(1:ℝ) * 10 ^ d + 1 / 2⌋ = (10 ^ d : ℤ) := by
    rw [Int.floor_eq_iff]
    constructor <;> (push_cast; try linarith)
  rw [hfl]
  push_cast
  exact div_self (ne_of_gt h10)

theorem toFixed_err (d : ℕ) (x : ℝ) : |toFixed d x - x| ≤ 1 / 2 / 10 ^ d := by
  have h10 : (0:ℝ) < 10 ^ d := by positivity
  have hle : (⌊x * 10 ^ d + 1 / 2⌋ : ℝ) ≤ x * 10 ^ d + 1 / 2 := Int.floor_le _
  have hgt : x * 10 ^ d + 1 / 2 - 1 < (⌊x * 10 ^ d + 1 / 2⌋ : ℝ) := by
    linarith [Int.lt_floor_add_one (x * 10 ^ d + 1 / 2)]
  have heq : toFixed d x - x =
      ((⌊x * 10 ^ d + 1 / 2⌋ : ℝ) - x * 10 ^ d) / 10 ^ d := by
    unfold toFixed
    field_simp
    ring
  rw [heq, abs_div, abs_of_pos h10]
  gcongr
  rw [abs_le]
  constructor <;> linarith

/-! ### Claim theorems -/

/-- C4: the MTF function used by the solver — `1` for `u ≤ 0`, `0` for
`u ≥ 1`, and `(2/π)(acos u − u·sqrt(1 − u²))` otherwise — is monotonically
non-increasing on `[0,1]`: whenever `u1 ≤ u2` in `[0,1]`,
`mtf u1 ≥ mtf u2`, with `mtf 0 = 1` and `mtf 1 = 0`. -/
theorem mtf_monotone_spec :
    (∀ u1 u2 : ℝ, 0 ≤ u1 → u1 ≤ u2 → u2 ≤ 1 → mtf u2 ≤ mtf u1) ∧
      mtf 0 = 1 ∧ mtf 1 = 0 :=
  ⟨fun u1 u2 h1 h12 h2 => mtf_anti u1 u2 h1 h12 h2, mtf_zero, mtf_one⟩

theorem mtf_monotone_spec_witness : mtf (1/2) ≤ mtf (1/4) :=
  mtf_monotone_spec.1 (1/4) (1/2) (by norm_num) (by norm_num) (by norm_num)

/-- C3: after validation passes, the boundaries short-circuit without
iterating: `contrastPercent ≥ 100` returns `spatialFrequency = 0` with the
computed cutoff, and `contrastPercent ≤ 0` returns `spatialFrequency`
equal to the cutoff; in both cases the optional fields are absent. -/
theorem boundary_short_circuits (f c w : ℝ) (hf : 0 < f) (hc0 : 0 ≤ c)
    (hc1 : c ≤ 100) (hw : 0 < w) :
    (100 ≤ c → calculateDiffractionLimit f c w =
      Except.ok { spatialFrequency := 0,
                  cutoffFrequency := 1 / (w * 1e-6 * f),
                  normalizedFrequency := none, iterations := none }) ∧
    (c ≤ 0 → calculateDiffractionLimit f c w =
      Except.ok { spatialFrequency := 1 / (w * 1e-6 * f),
                  cutoffFrequency := 1 / (w * 1e-6 * f),
                  normalizedFrequency := none, iterations := none }) :=
  ⟨calc_hundred f c w hf hc0 hc1 hw, calc_zero f c w hf hc0 hc1 hw⟩

theorem boundary_short_circuits_witness :
    calculateDiffractionLimit 8 100 520 =
      Except.ok { spatialFrequency := 0,
                  cutoffFrequency := 1 / (520 * 1e-6 * 8),
                  normalizedFrequency := none, iterations := none } :=
  (boundary_short_circuits 8 100 520 (by norm_num) (by norm_num) (by norm_num)
    (by norm_num)).1 (by norm_num)

/-- C5: the solver fails exactly when an input is out of domain, checking
`fNumber`, then `contrastPercent`, then `wavelengthNm`, with the three
fixed messages; when all three inputs are in domain it returns a result. -/
theorem validation_errors (f c w : ℝ) :
    (f ≤ 0 → calculateDiffractionLimit f c w =
      Except.error ("f-number must be positive")) ∧
    (0 < f → (c < 0 ∨ 100 < c) → calculateDiffractionLimit f c w =
      Except.error ("Contrast percentage must be between 0 and 100")) ∧
    (0 < f → 0 ≤ c → c ≤ 100 → w ≤ 0 → calculateDiffractionLimit f c w =
      Except.error ("Wavelength must be positive")) ∧
    (0 < f → 0 ≤ c → c ≤ 100 → 0 < w →
      ∃ r, calculateDiffractionLimit f c w = Except.ok r) := by
  refine ⟨?_, ?_, ?_, ?_⟩
  · intro h
    unfold calculateDiffractionLimit
    rw [if_pos h]
  · intro hf h
    unfold calculateDiffractionLimit
    rw [if_neg (by linarith), if_pos h]
  · intro hf hc0 hc1 hwl
    unfold calculateDiffractionLimit
    rw [if_neg (by linarith), if_neg (by push_neg; exact ⟨by linarith, by linarith⟩),
      if_pos hwl]
  · intro hf hc0 hc1 hw
    by_cases h100 : 100 ≤ c
    · exact ⟨_, calc_hundred f c w hf hc0 hc1 hw h100⟩
    · by_cases h0 : c ≤ 0
      · exact ⟨_, calc_zero f c w hf hc0 hc1 hw h0⟩
      · push_neg at h100 h0
        exact ⟨_, calc_interior f c w hf h0 h100 hw⟩

theorem validation_errors_witness :
    calculateDiffractionLimit (-1) 50 520 =
      Except.error ("f-number must be positive") ∧
    calculateDiffractionLimit 8 101 520 =
      Except.error ("Contrast percentage must be between 0 and 100") ∧
    calculateDiffractionLimit 8 50 (-5) =
      Except.error ("Wavelength must be positive") ∧
    ∃ r, calculateDiffractionLimit 8 50 520 = Except.ok r :=
  ⟨(validation_errors (-1) 50 520).1 (by norm_num),
   (validation_errors 8 101 520).2.1 (by norm_num) (Or.inr (by norm_num)),
   (validation_errors 8 50 (-5)).2.2.1 (by norm_num) (by norm_num) (by norm_num)
     (by norm_num),
   (validation_errors 8 50 520).2.2.2 (by norm_num) (by norm_num) (by norm_num)
     (by norm_num)⟩

/-- C8: the solver is deterministic and stateless — it is a pure function
of its three arguments, so identical arguments give identical outcomes. -/
theorem deterministic (f c w f2 c2 w2 : ℝ) (h1 : f = f2) (h2 : c = c2)
    (h3 : w = w2) :
    calculateDiffractionLimit f c w = calculateDiffractionLimit f2 c2 w2 := by
  rw [h1, h2, h3]

theorem deterministic_witness :
    calculateDiffractionLimit 8 50 520 = calculateDiffractionLimit 8 50 520 :=
  deterministic 8 50 520 8 50 520 rfl rfl rfl

/-- C6: the returned record carries `normalizedFrequency` and `iterations`
exactly when `contrastPercent` is strictly between 0 and 100; at the
boundary contrasts both fields are absent. -/
theorem conditional_field_presence (f c w : ℝ) (hf : 0 < f) (hc0 : 0 ≤ c)
    (hc1 : c ≤ 100) (hw : 0 < w) :
    ∃ r, calculateDiffractionLimit f c w = Except.ok r ∧
      ((r.normalizedFrequency.isSome = true ∧ r.iterations.isSome = true) ↔
        (0 < c ∧ c < 100)) ∧
      (c = 0 ∨ c = 100 →
        r.normalizedFrequency = none ∧ r.iterations = none) := by
  by_cases h100 : 100 ≤ c
  · refine ⟨_, calc_hundred f c w hf hc0 hc1 hw h100, ?_, ?_⟩
    · constructor
      · rintro ⟨h1, -⟩
        simp at h1
      · rintro ⟨-, h2⟩
        linarith
    · intro
      exact ⟨rfl, rfl⟩
  · by_cases h0 : c ≤ 0
    · refine ⟨_, calc_zero f c w hf hc0 hc1 hw h0, ?_, ?_⟩
      · constructor
        · rintro ⟨h1, -⟩
          simp at h1
        · rintro ⟨h2, -⟩
          linarith
      · intro
        exact ⟨rfl, rfl⟩
    · push_neg at h100 h0
      refine ⟨_, calc_interior f c w hf h0 h100 hw, ?_, ?_⟩
      · constructor
        · intro
          exact ⟨h0, h100⟩
        · intro
          exact ⟨rfl, rfl⟩
      · rintro (h | h) <;> linarith

theorem conditional_field_presence_witness :
    ∃ r, calculateDiffractionLimit 8 10 520 = Except.ok r ∧
      ((r.normalizedFrequency.isSome = true ∧ r.iterations.isSome = true) ↔
        ((0:ℝ) < 10 ∧ (10:ℝ) < 100)) ∧
      ((10:ℝ) = 0 ∨ (10:ℝ) = 100 →
        r.normalizedFrequency = none ∧ r.iterations = none) :=
  conditional_field_presence 8 10 520 (by norm_num) (by norm_num) (by norm_num)
    (by norm_num)

/-- C9: for every valid input the returned record satisfies
`spatialFrequency ≤ cutoffFrequency`. -/
theorem spatial_le_cutoff (f c w : ℝ) (hf : 0 < f) (hc0 : 0 ≤ c)
    (hc1 : c ≤ 100) (hw : 0 < w) :
    ∃ r, calculateDiffractionLimit f c w = Except.ok r ∧
      r.spatialFrequency ≤ r.cutoffFrequency := by
  have hν : (0:ℝ) < 1 / (w * 1e-6 * f) := by positivity
  by_cases h100 : 100 ≤ c
  · refine ⟨_, calc_hundred f c w hf hc0 hc1 hw h100, ?_⟩
    exact hν.le
  · by_cases h0 : c ≤ 0
    · refine ⟨_, calc_zero f c w hf hc0 hc1 hw h0, ?_⟩
      exact le_rfl
    · push_neg at h100 h0
      refine ⟨_, calc_interior f c w hf h0 h100 hw, ?_⟩
      show toFixed 1 _ ≤ toFixed 1 _
      apply toFixed_mono
      have hu := bisect_mem (c / 100) maxIterations 0 1 0.5 0 (by norm_num)
        (by norm_num)
      nlinarith [hu.1, hu.2]

theorem spatial_le_cutoff_witness :
    ∃ r, calculateDiffractionLimit 8 10 520 = Except.ok r ∧
      r.spatialFrequency ≤ r.cutoffFrequency :=
  spatial_le_cutoff 8 10 520 (by norm_num) (by norm_num) (by norm_num)
    (by norm_num)

/-- C10: on the bisection path the interval halves every counted
iteration starting from width 1, so the returned `iterations` is at most
20 — strictly below `maxIterations = 100`. -/
theorem iterations_le_twenty (f c w : ℝ) (hf : 0 < f) (hc0 : 0 < c)
    (hc1 : c < 100) (hw : 0 < w) :
    ∃ r it, calculateDiffractionLimit f c w = Except.ok r ∧
      r.iterations = some it ∧ it ≤ 20 ∧ it < maxIterations := by
  have h20 := bisect_iter_le (c / 100) maxIterations 0 1 0.5 0 (by norm_num)
    (by norm_num)
  refine ⟨_, (bisect (c / 100) maxIterations 0 1 0.5 0).2,
    calc_interior f c w hf hc0 hc1 hw, rfl, h20, ?_⟩
  exact lt_of_le_of_lt h20 (show 20 < maxIterations by norm_num [maxIterations])

theorem iterations_le_twenty_witness :
    ∃ r it, calculateDiffractionLimit 8 10 520 = Except.ok r ∧
      r.iterations = some it ∧ it ≤ 20 ∧ it < maxIterations :=
  iterations_le_twenty 8 10 520 (by norm_num) (by norm_num) (by norm_num)
    (by norm_num)

/-- Rounding a well-converged bisection result to six decimals keeps the
MTF value within `1e-3` of the target. -/
theorem conv_core (t u : ℝ) (hu0 : 0 ≤ u) (hu1 : u ≤ 1)
    (hcase : |mtf u - t| < tolerance ∨
      ∃ l h, 0 ≤ l ∧ h ≤ 1 ∧ l ≤ u ∧ u ≤ h ∧ h - l ≤ tolerance ∧
        t < mtf l ∧ mtf h < t) :
    |mtf (toFixed 6 u) - t| < 1e-3 := by
  have hun0 : 0 ≤ toFixed 6 u := toFixed_nonneg 6 u hu0
  have hun1 : toFixed 6 u ≤ 1 := by
    have h := toFixed_mono 6 u 1 hu1
    rwa [toFixed_one] at h
  have herr : |toFixed 6 u - u| ≤ 1 / 2 / 10 ^ 6 := toFixed_err 6 u
  have hlip1 := mtf_lip u (toFixed 6 u) ⟨hu0, hu1⟩ ⟨hun0, hun1⟩
  rcases hcase with hbreak | ⟨l, h, hl0, hh1, hlu, huh, hwid, htl, hth⟩
  · calc |mtf (toFixed 6 u) - t|
        ≤ |mtf (toFixed 6 u) - mtf u| + |mtf u - t| := abs_sub_le _ _ _
      _ ≤ 2 * (1 / 2 / 10 ^ 6) + tolerance := by linarith [hbreak.le]
      _ < 1e-3 := by norm_num [tolerance]
  · obtain ⟨r0, hr0mem, hr0⟩ := mtf_root_exists t l h hl0 (le_trans hlu huh)
      hh1 htl.le hth.le
    have hr00 : 0 ≤ r0 := le_trans hl0 hr0mem.1
    have hr01 : r0 ≤ 1 := le_trans hr0mem.2 hh1
    have hur : |u - r0| ≤ tolerance := by
      rw [abs_le]
      constructor
      · linarith [hr0mem.2, hlu, hwid]
      · linarith [hr0mem.1, huh, hwid]
    have hlip2 := mtf_lip r0 (toFixed 6 u) ⟨hr00, hr01⟩ ⟨hun0, hun1⟩
    have htri : |toFixed 6 u - r0| ≤ |toFixed 6 u - u| + |u - r0| :=
      abs_sub_le _ _ _
    calc |mtf (toFixed 6 u) - t|
        = |mtf (toFixed 6 u) - mtf r0| := by rw [hr0]
      _ ≤ 2 * |toFixed 6 u - r0| := hlip2
      _ ≤ 2 * (1 / 2 / 10 ^ 6 + tolerance) := by linarith
      _ < 1e-3 := by norm_num [tolerance]

/-- C1: for contrast strictly between 0 and 100, the returned
`normalizedFrequency` `un` satisfies `|mtf un − contrastPercent/100| <
1e-3` and the returned iteration count is at most 100. -/
theorem mtf_inversion_convergence (f c w : ℝ) (hf : 0 < f) (hc0 : 0 < c)
    (hc1 : c < 100) (hw : 0 < w) :
    ∃ r un it, calculateDiffractionLimit f c w = Except.ok r ∧
      r.normalizedFrequency = some un ∧ r.iterations = some it ∧
      |mtf un - c / 100| < 1e-3 ∧ it ≤ 100 := by
  have hit : (bisect (c / 100) maxIterations 0 1 0.5 0).2 ≤ 100 := by
    have := bisect_iter_le (c / 100) maxIterations 0 1 0.5 0 (by norm_num)
      (by norm_num)
    omega
  refine ⟨_, toFixed 6 (bisect (c / 100) maxIterations 0 1 0.5 0).1,
    (bisect (c / 100) maxIterations 0 1 0.5 0).2,
    calc_interior f c w hf hc0 hc1 hw, rfl, rfl, ?_, hit⟩
  have ht0 : 0 < c / 100 := by positivity
  have ht1 : c / 100 < 1 := by linarith
  have hm0 : c / 100 < mtf 0 := by rw [mtf_zero]; linarith
  have hm1 : mtf 1 < c / 100 := by rw [mtf_one]; linarith
  have humem := bisect_mem (c / 100) maxIterations 0 1 0.5 0 (by norm_num)
    (by norm_num)
  apply conv_core (c / 100) _ humem.1 humem.2
  exact bisect_bracket (c / 100) maxIterations 0 1 0.5 0 (by norm_num)
    (by norm_num) (by norm_num) (by norm_num) (by norm_num)
    (by norm_num [maxIterations]) hm0 hm1

theorem mtf_inversion_convergence_witness :
    ∃ r un it, calculateDiffractionLimit 8 10 520 = Except.ok r ∧
      r.normalizedFrequency = some un ∧ r.iterations = some it ∧
      |mtf un - 10 / 100| < 1e-3 ∧ it ≤ 100 :=
  mtf_inversion_convergence 8 10 520 (by norm_num) (by norm_num) (by norm_num)
    (by norm_num)

/-- C2 (amended): on the bisection path the returned `cutoffFrequency` is
`1/(wavelengthNm·1e-6·fNumber)` rounded to one decimal, but at the
boundary contrasts 0 and 100 the record carries the raw, unrounded value
instead. -/
theorem cutoff_rounding_amended (f c w : ℝ) (hf : 0 < f) (hc0 : 0 ≤ c)
    (hc1 : c ≤ 100) (hw : 0 < w) :
    ∃ r, calculateDiffractionLimit f c w = Except.ok r ∧
      (0 < c → c < 100 →
        r.cutoffFrequency = toFixed 1 (1 / (w * 1e-6 * f))) ∧
      (c = 0 ∨ c = 100 →
        r.cutoffFrequency = 1 / (w * 1e-6 * f)) := by
  by_cases h100 : 100 ≤ c
  · refine ⟨_, calc_hundred f c w hf hc0 hc1 hw h100, ?_, ?_⟩
    · intro _ h
      linarith
    · intro _
      rfl
  · by_cases h0 : c ≤ 0
    · refine ⟨_, calc_zero f c w hf hc0 hc1 hw h0, ?_, ?_⟩
      · intro h _
        linarith
      · intro _
        rfl
    · push_neg at h100 h0
      refine ⟨_, calc_interior f c w hf h0 h100 hw, ?_, ?_⟩
      · intro _ _
        rfl
      · rintro (h | h) <;> [linarith; linarith]

theorem cutoff_rounding_amended_witness :
    ∃ r, calculateDiffractionLimit 8 10 520 = Except.ok r ∧
      ((0:ℝ) < 10 → (10:ℝ) < 100 →
        r.cutoffFrequency = toFixed 1 (1 / (520 * 1e-6 * 8))) ∧
      ((10:ℝ) = 0 ∨ (10:ℝ) = 100 →
        r.cutoffFrequency = 1 / (520 * 1e-6 * 8)) :=
  cutoff_rounding_amended 8 10 520 (by norm_num) (by norm_num) (by norm_num)
    (by norm_num)

/-- C2 (counterexample): at the valid boundary input `(8, 100, 520)` the
returned `cutoffFrequency` is the raw value `3125/13 = 240.3846…`, not its
one-decimal rounding `240.4`, falsifying the claim for boundary
contrasts. -/
theorem cutoff_rounding_counterexample :
    cutoffFrequencyOf (calculateDiffractionLimit 8 100 520) ≠
      toFixed 1 (1 / (520 * 1e-6 * 8)) := by
  rw [calc_hundred 8 100 520 (by norm_num) (by norm_num) (by norm_num)
    (by norm_num) (by norm_num)]
  show (1 : ℝ) / (520 * 1e-6 * 8) ≠ toFixed 1 (1 / (520 * 1e-6 * 8))
  unfold toFixed
  have hfl : ⌊(1 : ℝ) / (520 * 1e-6 * 8) * 10 ^ 1 + 1 / 2⌋ = 2404 := by
    rw [Int.floor_eq_iff]
    constructor <;> norm_num
  rw [hfl]
  norm_num

/-! ### Rational bounds on cosine, arccosine, and concrete MTF values -/

theorem sin_lower (x : ℝ) (h0 : 0 ≤ x) (h1 : x ≤ 1) :
    x - x ^ 3 / 6 - x ^ 4 * (5 / 96) ≤ Real.sin x := by
  have hb := Real.sin_bound (x := x) (by rw [abs_of_nonneg h0]; exact h1)
  rw [abs_of_nonneg h0] at hb
  have h2 := abs_le.mp hb
  linarith [h2.1]

theorem sin_upper (x : ℝ) (h0 : 0 ≤ x) (h1 : x ≤ 1) :
    Real.sin x ≤ x - x ^ 3 / 6 + x ^ 4 * (5 / 96) := by
  have hb := Real.sin_bound (x := x) (by rw [abs_of_nonneg h0]; exact h1)
  rw [abs_of_nonneg h0] at hb
  have h2 := abs_le.mp hb
  linarith [h2.2]

theorem cos_double_lower (x s : ℝ) (h0 : 0 ≤ x) (h1 : x ≤ 1)
    (hs : x - x ^ 3 / 6 + x ^ 4 * (5 / 96) ≤ s) :
    1 - 2 * s ^ 2 ≤ Real.cos (2 * x) := by
  have hsu : Real.sin x ≤ s := le_trans (sin_upper x h0 h1) hs
  have hsin0 : 0 ≤ Real.sin x :=
    Real.sin_nonneg_of_nonneg_of_le_pi h0 (le_trans h1 (by linarith [Real.pi_gt_three]))
  have hsq : Real.sin x ^ 2 ≤ s ^ 2 := pow_le_pow_left₀ hsin0 hsu 2
  have hcos := Real.cos_two_mul x
  have hpy := Real.sin_sq_add_cos_sq x
  linarith

theorem cos_double_upper (x s : ℝ) (h0 : 0 ≤ x) (h1 : x ≤ 1) (hs0 : 0 ≤ s)
    (hs : s ≤ x - x ^ 3 / 6 - x ^ 4 * (5 / 96)) :
    Real.cos (2 * x) ≤ 1 - 2 * s ^ 2 := by
  have hsl : s ≤ Real.sin x := le_trans hs (sin_lower x h0 h1)
  have hsq : s ^ 2 ≤ Real.sin x ^ 2 := pow_le_pow_left₀ hs0 hsl 2
  have hcos := Real.cos_two_mul x
  have hpy := Real.sin_sq_add_cos_sq x
  linarith

theorem arccos_le_of_cos_le (A x : ℝ) (hA0 : 0 ≤ A) (hAπ : A ≤ π)
    (hx1 : x ≤ 1) (h : Real.cos A ≤ x) : Real.arccos x ≤ A := by
  by_contra hlt
  push_neg at hlt
  have hm1 : (-1:ℝ) ≤ x := le_trans (Real.neg_one_le_cos A) h
  have hmono := Real.strictAntiOn_cos ⟨hA0, hAπ⟩
    ⟨Real.arccos_nonneg x, Real.arccos_le_pi x⟩ hlt
  rw [Real.cos_arccos hm1 hx1] at hmono
  linarith

theorem le_arccos_of_le_cos (A x : ℝ) (hA0 : 0 ≤ A) (hAπ : A ≤ π)
    (hxm : -1 ≤ x) (h : x ≤ Real.cos A) : A ≤ Real.arccos x := by
  by_contra hlt
  push_neg at hlt
  have hx1 : x ≤ 1 := le_trans h (Real.cos_le_one A)
  have hmono := Real.strictAntiOn_cos
    ⟨Real.arccos_nonneg x, Real.arccos_le_pi x⟩ ⟨hA0, hAπ⟩ hlt
  rw [Real.cos_arccos hxm hx1] at hmono
  linarith

theorem mtf_half_lb : (0.100001 : ℝ) ≤ mtf (1/2) := by
  have harc : Real.arccos (1/2) = π / 3 := by
    rw [← Real.cos_pi_div_three]
    exact Real.arccos_cos (by positivity) (by linarith [Real.pi_pos])
  have hsq : Real.sqrt (1 - (1/2 : ℝ) * (1/2)) ≤ 0.867 :=
    (Real.sqrt_le_left (by norm_num)).mpr (by norm_num)
  unfold mtf
  rw [if_neg (by norm_num), if_neg (by norm_num), harc]
  rw [div_mul_eq_mul_div, le_div_iff₀ Real.pi_pos]
  have hπ1 : (3.141592 : ℝ) < π := Real.pi_gt_d6
  linarith

theorem mtf_three_quarters_lb : (0.100001 : ℝ) ≤ mtf (3/4) := by
  have hcos : (0.75:ℝ) ≤ Real.cos 0.718 := by
    have h := cos_double_lower 0.359 0.352154 (by norm_num) (by norm_num)
      (by norm_num)
    rw [show (2:ℝ) * 0.359 = 0.718 by norm_num] at h
    linarith
  have harc : (0.718:ℝ) ≤ Real.arccos (3/4) :=
    le_arccos_of_le_cos 0.718 (3/4) (by norm_num)
      (by linarith [Real.pi_gt_three]) (by norm_num) (by linarith)
  have hsq : Real.sqrt (1 - (3/4 : ℝ) * (3/4)) ≤ 0.6615 :=
    (Real.sqrt_le_left (by norm_num)).mpr (by norm_num)
  unfold mtf
  rw [if_neg (by norm_num), if_neg (by norm_num)]
  rw [div_mul_eq_mul_div, le_div_iff₀ Real.pi_pos]
  have hπ2 : π < (3.141593 : ℝ) := Real.pi_lt_d6
  linarith

theorem mtf_seven_eighths_ub : mtf (7/8) ≤ (0.099999 : ℝ) := by
  have hcos : Real.cos 0.512 ≤ (0.875:ℝ) := by
    have h := cos_double_upper 0.256 0.25298 (by norm_num) (by norm_num)
      (by norm_num) (by norm_num)
    rw [show (2:ℝ) * 0.256 = 0.512 by norm_num] at h
    linarith
  have harc : Real.arccos (7/8) ≤ 0.512 :=
    arccos_le_of_cos_le 0.512 (7/8) (by norm_num)
      (by linarith [Real.pi_gt_three]) (by norm_num) (by linarith)
  have hsq : (0.4841 : ℝ) ≤ Real.sqrt (1 - (7/8 : ℝ) * (7/8)) := by
    apply Real.le_sqrt_of_sq_le
    norm_num
  unfold mtf
  rw [if_neg (by norm_num), if_neg (by norm_num)]
  rw [div_mul_eq_mul_div, div_le_iff₀ Real.pi_pos]
  have hπ1 : (3.141592 : ℝ) < π := Real.pi_gt_d6
  linarith

theorem mtf_thirteen_sixteenths_ub : mtf (13/16) ≤ (0.099999 : ℝ) := by
  have hcos : Real.cos 0.626 ≤ (0.8125:ℝ) := by
    have h := cos_double_upper 0.313 0.307389 (by norm_num) (by norm_num)
      (by norm_num) (by norm_num)
    rw [show (2:ℝ) * 0.313 = 0.626 by norm_num] at h
    linarith
  have harc : Real.arccos (13/16) ≤ 0.626 :=
    arccos_le_of_cos_le 0.626 (13/16) (by norm_num)
      (by linarith [Real.pi_gt_three]) (by norm_num) (by linarith)
  have hsq : (0.5829 : ℝ) ≤ Real.sqrt (1 - (13/16 : ℝ) * (13/16)) := by
    apply Real.le_sqrt_of_sq_le
    norm_num
  unfold mtf
  rw [if_neg (by norm_num), if_neg (by norm_num)]
  rw [div_mul_eq_mul_div, div_le_iff₀ Real.pi_pos]
  have hπ1 : (3.141592 : ℝ) < π := Real.pi_gt_d6
  linarith

theorem mtf_twentyfive_thirtyseconds_lb : (0.100001 : ℝ) ≤ mtf (25/32) := by
  have hcos : (0.78125:ℝ) ≤ Real.cos 0.67 := by
    have h := cos_double_lower 0.335 0.3294 (by norm_num) (by norm_num)
      (by norm_num)
    rw [show (2:ℝ) * 0.335 = 0.67 by norm_num] at h
    linarith
  have harc : (0.67:ℝ) ≤ Real.arccos (25/32) :=
    le_arccos_of_le_cos 0.67 (25/32) (by norm_num)
      (by linarith [Real.pi_gt_three]) (by norm_num) (by linarith)
  have hsq : Real.sqrt (1 - (25/32 : ℝ) * (25/32)) ≤ 0.6243 :=
    (Real.sqrt_le_left (by norm_num)).mpr (by norm_num)
  unfold mtf
  rw [if_neg (by norm_num), if_neg (by norm_num)]
  rw [div_mul_eq_mul_div, le_div_iff₀ Real.pi_pos]
  have hπ2 : π < (3.141593 : ℝ) := Real.pi_lt_d6
  linarith

/-! ### Concrete evaluation of the loop for target 1/10 -/

theorem bisect_tenth_mem :
    25/32 ≤ (bisect (1/10 : ℝ) maxIterations 0 1 0.5 0).1 ∧
      (bisect (1/10 : ℝ) maxIterations 0 1 0.5 0).1 ≤ 13/16 := by
  have htol : (0:ℝ) < tolerance := by norm_num [tolerance]
  have q1 := mtf_half_lb
  have q2 := mtf_three_quarters_lb
  have q3 := mtf_seven_eighths_ub
  have q4 := mtf_thirteen_sixteenths_ub
  have q5 := mtf_twentyfive_thirtyseconds_lb
  have hnb1 : ¬ |mtf (1/2) - 1/10| < tolerance := by
    rw [not_lt, le_abs]
    left
    rw [show tolerance = 1e-6 from rfl]
    linarith
  have hdir1 : mtf (1/2) > 1/10 := by linarith
  have hnb2 : ¬ |mtf (3/4) - 1/10| < tolerance := by
    rw [not_lt, le_abs]
    left
    rw [show tolerance = 1e-6 from rfl]
    linarith
  have hdir2 : mtf (3/4) > 1/10 := by linarith
  have hnb3 : ¬ |mtf (7/8) - 1/10| < tolerance := by
    rw [not_lt, le_abs]
    right
    rw [show tolerance = 1e-6 from rfl]
    linarith
  have hdir3 : ¬ mtf (7/8) > 1/10 := not_lt.mpr (by linarith)
  have hnb4 : ¬ |mtf (13/16) - 1/10| < tolerance := by
    rw [not_lt, le_abs]
    right
    rw [show tolerance = 1e-6 from rfl]
    linarith
  have hdir4 : ¬ mtf (13/16) > 1/10 := not_lt.mpr (by linarith)
  have hnb5 : ¬ |mtf (25/32) - 1/10| < tolerance := by
    rw [not_lt, le_abs]
    left
    rw [show tolerance = 1e-6 from rfl]
    linarith
  have hdir5 : mtf (25/32) > 1/10 := by linarith
  have e1 : bisect (1/10 : ℝ) maxIterations 0 1 0.5 0 =
      bisect (1/10) 99 (1/2) 1 (1/2) 1 :=
    bisect_step_low (1/10) 99 0 1 0.5 (1/2) 0 (by norm_num)
      (by norm_num [tolerance]) hnb1 hdir1
  have e2 : bisect (1/10 : ℝ) 99 (1/2) 1 (1/2) 1 =
      bisect (1/10) 98 (3/4) 1 (3/4) 2 :=
    bisect_step_low (1/10) 98 (1/2) 1 (1/2) (3/4) 1 (by norm_num)
      (by norm_num [tolerance]) hnb2 hdir2
  have e3 : bisect (1/10 : ℝ) 98 (3/4) 1 (3/4) 2 =
      bisect (1/10) 97 (3/4) (7/8) (7/8) 3 :=
    bisect_step_high (1/10) 97 (3/4) 1 (3/4) (7/8) 2 (by norm_num)
      (by norm_num [tolerance]) hnb3 hdir3
  have e4 : bisect (1/10 : ℝ) 97 (3/4) (7/8) (7/8) 3 =
      bisect (1/10) 96 (3/4) (13/16) (13/16) 4 :=
    bisect_step_high (1/10) 96 (3/4) (7/8) (7/8) (13/16) 3 (by norm_num)
      (by norm_num [tolerance]) hnb4 hdir4
  have e5 : bisect (1/10 : ℝ) 96 (3/4) (13/16) (13/16) 4 =
      bisect (1/10) 95 (25/32) (13/16) (25/32) 5 :=
    bisect_step_low (1/10) 95 (3/4) (13/16) (13/16) (25/32) 4 (by norm_num)
      (by norm_num [tolerance]) hnb5 hdir5
  rw [e1, e2, e3, e4, e5]
  exact bisect_mem (1/10) 95 (25/32) (13/16) (25/32) 5 le_rfl (by norm_num)

theorem spatial_zero_val :
    spatialFrequencyOf (calculateDiffractionLimit 512 0 10000) = 25/128 := by
  rw [calc_zero 512 0 10000 (by norm_num) le_rfl (by norm_num) (by norm_num)
    le_rfl]
  show (1 : ℝ) / (10000 * 1e-6 * 512) = 25/128
  norm_num

theorem spatial_ten_val :
    spatialFrequencyOf (calculateDiffractionLimit 512 10 10000) = 1/5 := by
  rw [calc_interior 512 10 10000 (by norm_num) (by norm_num) (by norm_num)
    (by norm_num)]
  show toFixed 1 ((bisect ((10:ℝ) / 100) maxIterations 0 1 0.5 0).1 *
    (1 / (10000 * 1e-6 * 512))) = 1/5
  rw [show (10:ℝ)/100 = 1/10 by norm_num,
    show (1:ℝ) / (10000 * 1e-6 * 512) = 25/128 by norm_num]
  have hmem := bisect_tenth_mem
  unfold toFixed
  have hfl : ⌊(bisect (1/10 : ℝ) maxIterations 0 1 0.5 0).1 * (25/128) *
      10 ^ 1 + 1/2⌋ = 2 := by
    rw [Int.floor_eq_iff]
    constructor
    · push_cast
      nlinarith [hmem.1]
    · push_cast
      nlinarith [hmem.2]
  rw [hfl]
  norm_num

/-- C7 (counterexample): with fixed valid `fNumber = 512` and
`wavelengthNm = 10000`, the contrasts `c1 = 0 ≤ c2 = 10` give
`spatialFrequency 0.1953125 < 0.2`: the returned `spatialFrequency` is
NOT non-increasing in `contrastPercent` on `[0,100]`, because at contrast
0 the unrounded cutoff `25/128` is returned while the bisection path
rounds `u·cutoff` up to `0.2`. -/
theorem contrast_monotonicity_counterexample :
    spatialFrequencyOf (calculateDiffractionLimit 512 0 10000) <
      spatialFrequencyOf (calculateDiffractionLimit 512 10 10000) := by
  rw [spatial_zero_val, spatial_ten_val]
  norm_num

/-! ### Lockstep monotonicity of the bisection loop -/

/-- Paired-run monotonicity: running the loop on the same dyadic grid with
a smaller target keeps the delivered `u` at least as large.  `w` is the
common interval width and `j1, j2` the grid positions of the lower
endpoints. -/
theorem bisect_mono (t1 t2 : ℝ) (ht : t1 ≤ t2) :
    ∀ (fuel : ℕ) (w : ℝ) (j1 j2 : ℕ) (u1 u2 : ℝ) (it1 it2 : ℕ),
      0 < w → j2 ≤ j1 →
      (j1 : ℝ) * w ≤ u1 → u1 ≤ (j1 : ℝ) * w + w →
      (j2 : ℝ) * w ≤ u2 → u2 ≤ (j2 : ℝ) * w + w →
      u2 ≤ u1 →
      (bisect t2 fuel ((j2 : ℝ) * w) ((j2 : ℝ) * w + w) u2 it2).1 ≤
        (bisect t1 fuel ((j1 : ℝ) * w) ((j1 : ℝ) * w + w) u1 it1).1 := by
  intro fuel
  induction fuel with
  | zero =>
    intro w j1 j2 u1 u2 it1 it2 hw hj h11 h12 h21 h22 hu
    rw [bisect_zero, bisect_zero]
    exact hu
  | succ n ih =>
    intro w j1 j2 u1 u2 it1 it2 hw hj h11 h12 h21 h22 hu
    have htol : (0:ℝ) < tolerance := by norm_num [tolerance]
    have hjr : (j2 : ℝ) ≤ (j1 : ℝ) := Nat.cast_le.mpr hj
    have hl21 : (j2:ℝ) * w ≤ (j1:ℝ) * w :=
      mul_le_mul_of_nonneg_right hjr hw.le
    have hm21 : (j2:ℝ) * w + w / 2 ≤ (j1:ℝ) * w + w / 2 := by linarith
    by_cases hwt : w > tolerance
    · have hwt1 : ((j1:ℝ) * w + w) - (j1:ℝ) * w > tolerance := by
        simpa using hwt
      have hwt2 : ((j2:ℝ) * w + w) - (j2:ℝ) * w > tolerance := by
        simpa using hwt
      by_cases hb1 : |mtf ((j1:ℝ) * w + w / 2) - t1| < tolerance
      · rw [bisect_break t1 n _ _ u1 ((j1:ℝ) * w + w/2) it1 (by ring) hwt1 hb1]
        by_cases hb2 : |mtf ((j2:ℝ) * w + w / 2) - t2| < tolerance
        · rw [bisect_break t2 n _ _ u2 ((j2:ℝ) * w + w/2) it2 (by ring)
            hwt2 hb2]
          exact hm21
        · rcases eq_or_lt_of_le hj with heq | hlt
          · have hmeq : (j2:ℝ) * w + w / 2 = (j1:ℝ) * w + w / 2 := by
              rw [heq]
            have habs1 := abs_lt.mp hb1
            have h2lt : mtf ((j2:ℝ) * w + w / 2) - t2 < tolerance := by
              rw [hmeq]
              linarith [habs1.2]
            have h2le : mtf ((j2:ℝ) * w + w / 2) - t2 ≤ -tolerance := by
              rcases le_abs.mp (not_lt.mp hb2) with h | h
              · linarith
              · linarith
            have hdir2 : ¬ mtf ((j2:ℝ) * w + w / 2) > t2 :=
              not_lt.mpr (by linarith)
            rw [bisect_step_high t2 n _ _ u2 ((j2:ℝ) * w + w/2) it2 (by ring)
              hwt2 hb2 hdir2]
            have hres := bisect_mem t2 n ((j2:ℝ)*w) ((j2:ℝ)*w + w/2)
              ((j2:ℝ)*w + w/2) (it2+1) (by linarith) le_rfl
            exact le_trans hres.2 hm21
          · have hj1 : ((j2:ℝ) + 1) ≤ (j1:ℝ) := by exact_mod_cast hlt
            have hhigh2 : (j2:ℝ) * w + w ≤ (j1:ℝ) * w := by nlinarith
            by_cases hdir2 : mtf ((j2:ℝ) * w + w / 2) > t2
            · rw [bisect_step_low t2 n _ _ u2 ((j2:ℝ) * w + w/2) it2
                (by ring) hwt2 hb2 hdir2]
              have hres := bisect_mem t2 n ((j2:ℝ)*w + w/2) ((j2:ℝ)*w + w)
                ((j2:ℝ)*w + w/2) (it2+1) le_rfl (by linarith)
              linarith [hres.2]
            · rw [bisect_step_high t2 n _ _ u2 ((j2:ℝ) * w + w/2) it2
                (by ring) hwt2 hb2 hdir2]
              have hres := bisect_mem t2 n ((j2:ℝ)*w) ((j2:ℝ)*w + w/2)
                ((j2:ℝ)*w + w/2) (it2+1) (by linarith) le_rfl
              linarith [hres.2]
      · by_cases hb2 : |mtf ((j2:ℝ) * w + w / 2) - t2| < tolerance
        · rw [bisect_break t2 n _ _ u2 ((j2:ℝ) * w + w/2) it2 (by ring)
            hwt2 hb2]
          rcases eq_or_lt_of_le hj with heq | hlt
          · have hmeq : (j2:ℝ) * w + w / 2 = (j1:ℝ) * w + w / 2 := by
              rw [heq]
            have habs2 := abs_lt.mp hb2
            have h1gt : mtf ((j1:ℝ) * w + w / 2) - t1 > -tolerance := by
              rw [← hmeq]
              linarith [habs2.1]
            have h1ge : tolerance ≤ mtf ((j1:ℝ) * w + w / 2) - t1 := by
              rcases le_abs.mp (not_lt.mp hb1) with h | h
              · exact h
              · linarith
            have hdir1 : mtf ((j1:ℝ) * w + w / 2) > t1 := by linarith
            rw [bisect_step_low t1 n _ _ u1 ((j1:ℝ) * w + w/2) it1 (by ring)
              hwt1 hb1 hdir1]
            have hres := bisect_mem t1 n ((j1:ℝ)*w + w/2) ((j1:ℝ)*w + w)
              ((j1:ℝ)*w + w/2) (it1+1) le_rfl (by linarith)
            show (j2:ℝ) * w + w / 2 ≤ _
            rw [hmeq]
            exact hres.1
          · have hj1 : ((j2:ℝ) + 1) ≤ (j1:ℝ) := by exact_mod_cast hlt
            have hlow1 : (j2:ℝ) * w + w / 2 ≤ (j1:ℝ) * w := by nlinarith
            by_cases hdir1 : mtf ((j1:ℝ) * w + w / 2) > t1
            · rw [bisect_step_low t1 n _ _ u1 ((j1:ℝ) * w + w/2) it1
                (by ring) hwt1 hb1 hdir1]
              have hres := bisect_mem t1 n ((j1:ℝ)*w + w/2) ((j1:ℝ)*w + w)
                ((j1:ℝ)*w + w/2) (it1+1) le_rfl (by linarith)
              linarith [hres.1]
            · rw [bisect_step_high t1 n _ _ u1 ((j1:ℝ) * w + w/2) it1
                (by ring) hwt1 hb1 hdir1]
              have hres := bisect_mem t1 n ((j1:ℝ)*w) ((j1:ℝ)*w + w/2)
                ((j1:ℝ)*w + w/2) (it1+1) (by linarith) le_rfl
              linarith [hres.1]
        · have hw2 : (0:ℝ) < w / 2 := by linarith
          by_cases hdir1 : mtf ((j1:ℝ) * w + w / 2) > t1
          · rw [bisect_step_low t1 n _ _ u1 ((j1:ℝ) * w + w/2) it1 (by ring)
              hwt1 hb1 hdir1]
            by_cases hdir2 : mtf ((j2:ℝ) * w + w / 2) > t2
            · rw [bisect_step_low t2 n _ _ u2 ((j2:ℝ) * w + w/2) it2
                (by ring) hwt2 hb2 hdir2]
              have hih := ih (w/2) (2*j1+1) (2*j2+1) ((j1:ℝ)*w + w/2)
                ((j2:ℝ)*w + w/2) (it1+1) (it2+1) hw2 (by omega)
                (by push_cast; linarith) (by push_cast; linarith)
                (by push_cast; linarith) (by push_cast; linarith)
                hm21
              rw [show ((2*j2+1 : ℕ) : ℝ) * (w/2) + w/2 = (j2:ℝ)*w + w by
                  push_cast; ring,
                  show ((2*j2+1 : ℕ) : ℝ) * (w/2) = (j2:ℝ)*w + w/2 by
                  push_cast; ring,
                  show ((2*j1+1 : ℕ) : ℝ) * (w/2) + w/2 = (j1:ℝ)*w + w by
                  push_cast; ring,
                  show ((2*j1+1 : ℕ) : ℝ) * (w/2) = (j1:ℝ)*w + w/2 by
                  push_cast; ring] at hih
              exact hih
            · rw [bisect_step_high t2 n _ _ u2 ((j2:ℝ) * w + w/2) it2
                (by ring) hwt2 hb2 hdir2]
              have hih := ih (w/2) (2*j1+1) (2*j2) ((j1:ℝ)*w + w/2)
                ((j2:ℝ)*w + w/2) (it1+1) (it2+1) hw2 (by omega)
                (by push_cast; linarith) (by push_cast; linarith)
                (by push_cast; linarith) (by push_cast; linarith)
                hm21
              rw [show ((2*j2 : ℕ) : ℝ) * (w/2) + w/2 = (j2:ℝ)*w + w/2 by
                  push_cast; ring,
                  show ((2*j2 : ℕ) : ℝ) * (w/2) = (j2:ℝ)*w by
                  push_cast; ring,
                  show ((2*j1+1 : ℕ) : ℝ) * (w/2) + w/2 = (j1:ℝ)*w + w by
                  push_cast; ring,
                  show ((2*j1+1 : ℕ) : ℝ) * (w/2) = (j1:ℝ)*w + w/2 by
                  push_cast; ring] at hih
              exact hih
          · rw [bisect_step_high t1 n _ _ u1 ((j1:ℝ) * w + w/2) it1 (by ring)
              hwt1 hb1 hdir1]
            by_cases hdir2 : mtf ((j2:ℝ) * w + w / 2) > t2
            · have hjlt : j2 < j1 := by
                rcases eq_or_lt_of_le hj with heq | hlt
                · exfalso
                  have hmeq : (j2:ℝ) * w + w / 2 = (j1:ℝ) * w + w / 2 := by
                    rw [heq]
                  rw [hmeq] at hdir2
                  have := not_lt.mp hdir1
                  linarith
                · exact hlt
              rw [bisect_step_low t2 n _ _ u2 ((j2:ℝ) * w + w/2) it2
                (by ring) hwt2 hb2 hdir2]
              have hih := ih (w/2) (2*j1) (2*j2+1) ((j1:ℝ)*w + w/2)
                ((j2:ℝ)*w + w/2) (it1+1) (it2+1) hw2 (by omega)
                (by push_cast; linarith) (by push_cast; linarith)
                (by push_cast; linarith) (by push_cast; linarith)
                hm21
              rw [show ((2*j2+1 : ℕ) : ℝ) * (w/2) + w/2 = (j2:ℝ)*w + w by
                  push_cast; ring,
                  show ((2*j2+1 : ℕ) : ℝ) * (w/2) = (j2:ℝ)*w + w/2 by
                  push_cast; ring,
                  show ((2*j1 : ℕ) : ℝ) * (w/2) + w/2 = (j1:ℝ)*w + w/2 by
                  push_cast; ring,
                  show ((2*j1 : ℕ) : ℝ) * (w/2) = (j1:ℝ)*w by
                  push_cast; ring] at hih
              exact hih
            · rw [bisect_step_high t2 n _ _ u2 ((j2:ℝ) * w + w/2) it2
                (by ring) hwt2 hb2 hdir2]
              have hih := ih (w/2) (2*j1) (2*j2) ((j1:ℝ)*w + w/2)
                ((j2:ℝ)*w + w/2) (it1+1) (it2+1) hw2 (by omega)
                (by push_cast; linarith) (by push_cast; linarith)
                (by push_cast; linarith) (by push_cast; linarith)
                hm21
              rw [show ((2*j2 : ℕ) : ℝ) * (w/2) + w/2 = (j2:ℝ)*w + w/2 by
                  push_cast; ring,
                  show ((2*j2 : ℕ) : ℝ) * (w/2) = (j2:ℝ)*w by
                  push_cast; ring,
                  show ((2*j1 : ℕ) : ℝ) * (w/2) + w/2 = (j1:ℝ)*w + w/2 by
                  push_cast; ring,
                  show ((2*j1 : ℕ) : ℝ) * (w/2) = (j1:ℝ)*w by
                  push_cast; ring] at hih
              exact hih
    · rw [bisect_exit t1 n _ _ u1 it1 (by simpa using hwt),
        bisect_exit t2 n _ _ u2 it2 (by simpa using hwt)]
      exact hu

/-- C7 (amended): for fixed valid `fNumber` and `wavelengthNm`, the
returned `spatialFrequency` is non-increasing in `contrastPercent` over
contrasts in `(0, 100]`; the restriction to a strictly positive lower
contrast is forced by the counterexample at `contrastPercent = 0`, where
the boundary path returns the unrounded cutoff. -/
theorem contrast_monotonicity_amended (f w c1 c2 : ℝ) (hf : 0 < f)
    (hw : 0 < w) (hc1 : 0 < c1) (hcc : c1 ≤ c2) (hc2 : c2 ≤ 100) :
    spatialFrequencyOf (calculateDiffractionLimit f c2 w) ≤
      spatialFrequencyOf (calculateDiffractionLimit f c1 w) := by
  have hν : (0:ℝ) < 1 / (w * 1e-6 * f) := by positivity
  by_cases h2 : 100 ≤ c2
  · rw [calc_hundred f c2 w hf (by linarith) (by linarith) hw h2]
    show (0:ℝ) ≤ _
    by_cases h1 : 100 ≤ c1
    · rw [calc_hundred f c1 w hf (by linarith) (by linarith) hw h1]
      exact le_rfl
    · push_neg at h1
      rw [calc_interior f c1 w hf hc1 h1 hw]
      show (0:ℝ) ≤ toFixed 1 _
      apply toFixed_nonneg
      have hmem := bisect_mem (c1/100) maxIterations 0 1 0.5 0 (by norm_num)
        (by norm_num)
      nlinarith [hmem.1, hν.le]
  · push_neg at h2
    have h1lt : c1 < 100 := lt_of_le_of_lt hcc h2
    rw [calc_interior f c1 w hf hc1 h1lt hw,
      calc_interior f c2 w hf (by linarith) h2 hw]
    show toFixed 1 _ ≤ toFixed 1 _
    apply toFixed_mono
    have hu : (bisect (c2/100) maxIterations 0 1 0.5 0).1 ≤
        (bisect (c1/100) maxIterations 0 1 0.5 0).1 := by
      have hmono := bisect_mono (c1/100) (c2/100) (by linarith)
        maxIterations 1 0 0 0.5 0.5 0 0 (by norm_num) le_rfl
        (by norm_num) (by norm_num) (by norm_num) (by norm_num) le_rfl
      rw [show ((0:ℕ):ℝ) * 1 + 1 = 1 by norm_num,
        show ((0:ℕ):ℝ) * 1 = 0 by norm_num] at hmono
      exact hmono
    exact mul_le_mul_of_nonneg_right hu hν.le

theorem contrast_monotonicity_amended_witness :
    spatialFrequencyOf (calculateDiffractionLimit 8 20 520) ≤
      spatialFrequencyOf (calculateDiffractionLimit 8 10 520) :=
  contrast_monotonicity_amended 8 520 10 20 (by norm_num) (by norm_num)
    (by norm_num) (by norm_num) (by norm_num)

end Diffraction
